import Mathlib

/-!
Shallow embedding of `pattern_agentic_settings/base.py` (class `PABaseSettings`):
environment/.env-driven settings loading with layered overrides, validation-error
formatting, sensitive-field redaction, and in-place reload.

Python strings become `String`, `Optional[str]` values become `Option String`,
Python dicts of fields become association lists `List (String × Value)` in field
declaration order, exceptions become `Except`/`Option` results, and logger side
effects become explicit `List String` outputs.
-/

namespace PASettings

/-- A configuration value: `none` models Python `None`, `some s` a string value. -/
abbrev Value := Option String

/-- Association-list lookup by key, first match wins (models Python dict access /
`os.environ.get`). -/
def alookup {α : Type} : List (String × α) → String → Option α
  | [], _ => none
  | (k₁, v) :: rest, k => if k₁ = k then some v else alookup rest k

/-- One entry of a Pydantic `ValidationError.errors()` list: a location path and,
for non-missing errors, the engine message (`err["type"] == "missing"` versus the
rest). -/
inductive FieldError where
  | missing (loc : List String)
  | invalid (loc : List String) (msg : String)
deriving DecidableEq

/-- Python `err["loc"][0] if err["loc"] else "unknown"`. -/
def locName (loc : List String) : String := loc.headD "unknown"

/-- The missing-field names extracted by the first loop of
`format_config_validation_error`, in input order. -/
def missing_names (errors : List FieldError) : List String :=
  errors.filterMap fun e =>
    match e with
    | .missing loc => some (locName loc)
    | .invalid _ _ => none

/-- The `"{field_name}: {msg}"` entries collected by the first loop of
`format_config_validation_error` for non-missing errors, in input order. -/
def invalid_entries (errors : List FieldError) : List String :=
  errors.filterMap fun e =>
    match e with
    | .missing _ => none
    | .invalid loc msg => some (locName loc ++ ": " ++ msg)

/-- Translation of `PABaseSettings.format_config_validation_error`: one pass
splits the error entries into missing fields and invalid fields, then the
message is accumulated by string concatenation, sorting only the missing-field
names. -/
def format_config_validation_error (errors : List FieldError) : String :=
  let missing_fields := missing_names errors
  let invalid_fields := invalid_entries errors
  let m1 := "Configuration validation failed:\n"
  let m2 :=
    if missing_fields.isEmpty then m1
    else (List.insertionSort (· ≤ ·) missing_fields).foldl
      (fun acc f => acc ++ "  - " ++ f ++ "\n")
      (m1 ++ "\nMissing required configuration fields:\n")
  let m3 :=
    if invalid_fields.isEmpty then m2
    else invalid_fields.foldl
      (fun acc f => acc ++ "  - " ++ f ++ "\n")
      (m2 ++ "\nInvalid configuration values:\n")
  m3 ++ "\nPlease check your environment variables or .env file."

/-- Concatenation of a list of strings. -/
def concatAll : List String → String
  | [] => ""
  | s :: rest => s ++ concatAll rest

/-- The message shape the spec describes: a header, then (if any) the
alphabetically sorted missing-field names, then (if any) the invalid-field
entries, then a closing hint. Invalid entries are kept in input order, which is
what the code does. -/
def spec_format (errors : List FieldError) : String :=
  "Configuration validation failed:\n" ++
  (if missing_names errors = [] then ""
   else "\nMissing required configuration fields:\n" ++
     concatAll ((List.insertionSort (· ≤ ·) (missing_names errors)).map
       (fun f => "  - " ++ f ++ "\n"))) ++
  (if invalid_entries errors = [] then ""
   else "\nInvalid configuration values:\n" ++
     concatAll ((invalid_entries errors).map (fun f => "  - " ++ f ++ "\n"))) ++
  "\nPlease check your environment variables or .env file."

/-- Does the character list `pat` start the list `l`? -/
def leadsWith : List Char → List Char → Bool
  | [], _ => true
  | _ :: _, [] => false
  | a :: as, b :: bs => a == b && leadsWith as bs

/-- Does the character list `pat` occur contiguously inside `hay`? -/
def occursIn (pat : List Char) : List Char → Bool
  | [] => pat.isEmpty
  | c :: rest => leadsWith pat (c :: rest) || occursIn pat rest

/-- Python `pat in hay` on strings: contiguous substring test. -/
def containsSub (hay pat : String) : Bool :=
  occursIn pat.toList hay.toList

theorem leadsWith_refl_append (l t : List Char) : leadsWith l (l ++ t) = true := by
  induction l with
  | nil => rfl
  | cons a as ih => simp [leadsWith, ih]

theorem occursIn_here (pat t : List Char) : occursIn pat (pat ++ t) = true := by
  cases pat with
  | nil =>
    cases t with
    | nil => rfl
    | cons c r => simp [occursIn, leadsWith]
  | cons a as =>
    simp only [List.cons_append, occursIn, leadsWith, Bool.or_eq_true, Bool.and_eq_true,
      beq_self_eq_true, true_and]
    exact Or.inl (leadsWith_refl_append as t)

theorem occursIn_append_left (pat pre l : List Char) (h : occursIn pat l = true) :
    occursIn pat (pre ++ l) = true := by
  induction pre with
  | nil => simpa using h
  | cons c r ih =>
    simp only [List.cons_append, occursIn, Bool.or_eq_true]
    exact Or.inr ih

/-- An explicit decomposition `hay = pre ++ pat ++ post` makes the substring test
succeed. -/
theorem occursIn_of_decomp (pat pre post : List Char) :
    occursIn pat (pre ++ (pat ++ post)) = true :=
  occursIn_append_left pat pre (pat ++ post) (occursIn_here pat post)

theorem string_toList_append (a b : String) : (a ++ b).toList = a.toList ++ b.toList := by
  cases a with
  | mk da =>
    cases b with
    | mk db => rfl

/-- A declared settings field: its name, its default (`none` means the field is
required) and its validator, returning `some msg` when a raw source string is
invalid for the field's type. -/
structure FieldSpec where
  name : String
  default : Option Value
  invalidMsg : String → Option String

/-- The external world `load`/`reload` read from: process environment variables,
the filesystem (a path is a regular file iff it is listed, with its parsed
KEY=VALUE contents), and installed-package metadata (`none` models
`importlib.metadata.PackageNotFoundError`). -/
structure Env where
  vars : List (String × String)
  files : List (String × List (String × String))
  metadataVersion : String → Option String

/-- Validate one raw source string against a field. -/
def validateRaw (fs : FieldSpec) (raw : String) : Except FieldError Value :=
  match fs.invalidMsg raw with
  | none => .ok (some raw)
  | some m => .error (.invalid [fs.name] m)

/-- First file (searched in the given order) containing the key. -/
def firstHit : List (List (String × String)) → String → Option String
  | [], _ => none
  | f :: rest, k =>
    match alookup f k with
    | some v => some v
    | none => firstHit rest k

/-- Modelled from the spec: value resolution for one field by the
`pydantic_settings.BaseSettings` constructor, which is third-party code not in
this repository. Per the spec, a field is sourced with precedence: explicit
constructor argument, then the override files (the list is ordered
`[base, secrets]` and later entries override earlier ones, hence the reversed
search), then process environment variables, then the field default; a required
field with no source is a missing-field error and an unparsable sourced value
is an invalid-field error. Keys are matched under the configured environment
prefix. -/
def resolveField (pfx : String) (args : List (String × Value))
    (fileContents : List (List (String × String))) (vars : List (String × String))
    (fs : FieldSpec) : Except FieldError Value :=
  match alookup args fs.name with
  | some v => .ok v
  | none =>
    match firstHit fileContents.reverse (pfx ++ fs.name) with
    | some raw => validateRaw fs raw
    | none =>
      match alookup vars (pfx ++ fs.name) with
      | some raw => validateRaw fs raw
      | none =>
        match fs.default with
        | some d => .ok d
        | none => .error (.missing [fs.name])

/-- Resolution outcome of every declared field, in declaration order. -/
def resolveAll (pfx : String) (args : List (String × Value))
    (fileContents : List (List (String × String))) (vars : List (String × String))
    (fields : List FieldSpec) : List (String × Except FieldError Value) :=
  fields.map fun fs => (fs.name, resolveField pfx args fileContents vars fs)

/-- All field errors of a resolution pass, in declaration order. -/
def collectErrors (rs : List (String × Except FieldError Value)) : List FieldError :=
  rs.filterMap fun p =>
    match p.2 with
    | .error e => some e
    | .ok _ => none

/-- The successfully resolved fields of a resolution pass. -/
def okValues (rs : List (String × Except FieldError Value)) : List (String × Value) :=
  rs.filterMap fun p =>
    match p.2 with
    | .ok v => some (p.1, v)
    | .error _ => none

/-- Modelled from the spec: the `pydantic_settings.BaseSettings` constructor
(third-party code not in this repository). Field errors are collected across
all fields in one validation pass; construction returns a fully resolved record
(the `model_dump` association list, in declaration order) or the list of all
field errors, never a partial record. A configured override path that is not an
existing file contributes nothing. -/
def construct (fields : List FieldSpec) (pfx : String) (args : List (String × Value))
    (envFilePaths : List String) (env : Env) : Except (List FieldError) (List (String × Value)) :=
  let fileContents := envFilePaths.filterMap fun p => alookup env.files p
  let rs := resolveAll pfx args fileContents env.vars fields
  let errs := collectErrors rs
  if errs.isEmpty then .ok (okValues rs) else .error errs

/-- Python truthiness filter `[p for p in [a, b] if p]` for one optional path:
both `None` and the empty string are dropped. -/
def truthy : Option String → List String
  | some p => if p = "" then [] else [p]
  | none => []

/-- Translation of `PABaseSettings._version_from_importlib`: the installed
metadata version, else (on package-not-found) `fallback or "0.0.0-dev"`. -/
def version_from_importlib (env : Env) (package_name : String) (fallback : Option String) : String :=
  match env.metadataVersion package_name with
  | some v => v
  | none =>
    match fallback with
    | some f => if f = "" then "0.0.0-dev" else f
    | none => "0.0.0-dev"

/-- Lines 121-123 of `load`: the explicit `app_version` argument when truthy,
else the importlib resolution. -/
def resolve_version (env : Env) (package_name : String)
    (app_version fallback_version : Option String) : String :=
  match app_version with
  | some v => if v = "" then version_from_importlib env package_name fallback_version else v
  | none => version_from_importlib env package_name fallback_version

/-- Python `str.replace("-", "_")` on a single character. -/
def dashToUnderscore (c : Char) : Char := if c = '-' then '_' else c

/-- Python `str.split("_")` on character lists; always returns at least one
word, and `"".split("_") == [""]`. -/
def splitUnderscore : List Char → List (List Char)
  | [] => [[]]
  | c :: rest =>
    match splitUnderscore rest with
    | [] => [[]]
    | w :: ws => if c = '_' then [] :: w :: ws else (c :: w) :: ws

/-- Python `str.capitalize`: first character uppercased, the rest lowercased. -/
def pyCapitalize : List Char → List Char
  | [] => []
  | c :: rest => c.toUpper :: rest.map Char.toLower

/-- Python `" ".join` on character lists. -/
def spaceJoin : List (List Char) → List Char
  | [] => []
  | [w] => w
  | w :: ws => w ++ ' ' :: spaceJoin ws

/-- Lines 126-128 of `load`: derive the pretty application name from the
package identifier. -/
def derive_app_name (package_name : String) : String :=
  String.mk (spaceJoin ((splitUnderscore (package_name.toList.map dashToUnderscore)).map pyCapitalize))

/-- Lines 125-128 of `load`: the explicit `app_name` argument when truthy, else
the derived name. -/
def resolve_app_name (package_name : String) (app_name : Option String) : String :=
  match app_name with
  | some n => if n = "" then derive_app_name package_name else n
  | none => derive_app_name package_name

/-- The case-sensitive sensitive-name substrings of `safe_describe`. -/
def sensitive_keys : List String :=
  ["password", "secret", "key", "token", "auth", "service_account"]

/-- How Python renders a value inside an f-string. -/
def renderValue : Value → String
  | none => "None"
  | some s => s

/-- Is the field name sensitive (`any(x in key for x in sensitive_keys)`)? -/
def isSensitive (key : String) : Bool :=
  sensitive_keys.any fun x => containsSub key x

/-- The per-field rendering of `safe_describe`. -/
def redactValue (key : String) (v : Value) : String :=
  if isSensitive key then
    if v = none ∨ v = some "" then "(empty)" else "(redacted)"
  else renderValue v

/-- Translation of `PABaseSettings.safe_describe` over the `model_dump`
association list (whose keys are the distinct declared field names). -/
def safe_describe (dump : List (String × Value)) (indent : String) : String :=
  let safe_desc := dump.map fun p => (p.1, redactValue p.1 p.2)
  let keys := List.insertionSort (· ≤ ·) (safe_desc.map Prod.fst)
  String.intercalate "\n" (keys.map fun k => indent ++ k ++ ": " ++ (alookup safe_desc k).getD "")

/-- `os.environ.get(f"{env_prefix}DOT_ENV", None)`. -/
def dot_env_var (env : Env) (pfx : String) : Option String :=
  alookup env.vars (pfx ++ "DOT_ENV")

/-- `os.environ.get(f"{env_prefix}DOT_ENV_SECRETS", None)`. -/
def dot_env_secrets_var (env : Env) (pfx : String) : Option String :=
  alookup env.vars (pfx ++ "DOT_ENV_SECRETS")

/-- The warning logged for a configured but nonexistent base env file. -/
def warn_missing_dot_env (p : String) : String :=
  "WARNING: dot env file \x27" ++ p ++ "\x27 does not exist\n"

/-- The warning logged for a configured but nonexistent secrets file. -/
def warn_missing_secrets (p : String) : String :=
  "WARNING: secrets file \x27" ++ p ++ "\x27 does not exist\n"

/-- Lines 110-116 of `load`: warn when a path is truthy but not a regular file. -/
def fileWarnings (env : Env) (pathVar : Option String) (mkWarn : String → String) : List String :=
  match pathVar with
  | some p => if p ≠ "" ∧ (alookup env.files p).isNone then [mkWarn p] else []
  | none => []

/-- The keyword arguments `load` passes to the constructor (lines 131-135). -/
def load_args (version pretty : String) (dotEnvPath secretsPath : Option String) :
    List (String × Value) :=
  [("app_version", some version), ("app_name", some pretty),
   ("dot_env", dotEnvPath), ("dot_env_secrets", secretsPath)]

/-- Lines 139-141 of `load`: the startup log lines on success. -/
def startup_log (pretty version : String) (log_conf : Bool) (settings : List (String × Value)) :
    List String :=
  (pretty ++ " v" ++ version) ::
    (if log_conf then ["\nConfiguration:\n" ++ safe_describe settings "  " ++ "\n--------------------\n"]
     else [])

/-- Line 118 of `load`: `[p for p in [dot_env_path, dot_env_secrets_path] if p]`. -/
def load_env_files (env : Env) (pfx : String) : List String :=
  truthy (dot_env_var env pfx) ++ truthy (dot_env_secrets_var env pfx)

/-- Lines 110-116 of `load`: both possible missing-file warnings. -/
def load_warnings (env : Env) (pfx : String) : List String :=
  fileWarnings env (dot_env_var env pfx) warn_missing_dot_env ++
    fileWarnings env (dot_env_secrets_var env pfx) warn_missing_secrets

/-- Translation of `PABaseSettings.load`. The result is the pair of the logged
lines (warnings, then on success the startup lines) and either the constructed
record or the `RuntimeError` message formatted from the validation error. -/
def load (fields : List FieldSpec) (pfx : String) (env : Env) (package_name : String)
    (app_name app_version fallback_version : Option String) (log_conf_on_startup : Bool) :
    List String × Except String (List (String × Value)) :=
  match construct fields pfx
      (load_args (resolve_version env package_name app_version fallback_version)
        (resolve_app_name package_name app_name)
        (dot_env_var env pfx) (dot_env_secrets_var env pfx))
      (load_env_files env pfx) env with
  | .ok settings =>
    (load_warnings env pfx ++
      startup_log (resolve_app_name package_name app_name)
        (resolve_version env package_name app_version fallback_version)
        log_conf_on_startup settings,
     .ok settings)
  | .error exc => (load_warnings env pfx, .error (format_config_validation_error exc))

/-- `getattr(self, k)` on the record's declared fields. -/
def pyGetattr (self : List (String × Value)) (k : String) : Value :=
  (alookup self k).getD none

/-- `setattr(self, k, v)` on a declared field: overwrite the field in place. -/
def pySetattr (self : List (String × Value)) (k : String) (v : Value) : List (String × Value) :=
  self.map fun p => if p.1 = k then (p.1, v) else p

/-- The changed-parameter log line of `reload`. -/
def reload_log (k : String) : String := "Reloading changed parameter " ++ k

/-- Lines 68-72 of `reload`: walk the freshly dumped values in order; on a
difference, log and overwrite the live field. Returns the final record and the
log lines. -/
def reloadLoop (self : List (String × Value)) :
    List (String × Value) → List (String × Value) × List String
  | [] => (self, [])
  | (k, v) :: rest =>
    if v ≠ pyGetattr self k then
      let next := reloadLoop (pySetattr self k v) rest
      (next.1, reload_log k :: next.2)
    else reloadLoop self rest

/-- Line 59 of `reload`: `[p for p in [self.dot_env, self.dot_env_secrets] if p]`. -/
def reload_env_files (self : List (String × Value)) : List String :=
  truthy (pyGetattr self "dot_env") ++ truthy (pyGetattr self "dot_env_secrets")

/-- Lines 61-64 of `reload`: the keyword arguments of the rebuild, taken
verbatim from the live instance. -/
def reload_args (self : List (String × Value)) : List (String × Value) :=
  [("app_version", pyGetattr self "app_version"),
   ("app_name", pyGetattr self "app_name"),
   ("dot_env", pyGetattr self "dot_env"),
   ("dot_env_secrets", pyGetattr self "dot_env_secrets")]

/-- Translation of `PABaseSettings.reload`: rebuild from the same identity
fields and recorded file paths; on validation failure the error propagates
before any mutation (first component `some errors`, record unchanged, nothing
logged); on success apply the in-place diff and always log the separator. -/
def reload (fields : List FieldSpec) (pfx : String) (env : Env)
    (self : List (String × Value)) :
    Option (List FieldError) × List (String × Value) × List String :=
  match construct fields pfx (reload_args self) (reload_env_files self) env with
  | .error exc => (some exc, self, [])
  | .ok new_instance =>
    let next := reloadLoop self new_instance
    (none, next.1, next.2 ++ ["-------------------"])

/-! ### Infrastructure lemmas -/

theorem leadsWith_iff (pat : List Char) : ∀ l, leadsWith pat l = true ↔ ∃ t, l = pat ++ t := by
  induction pat with
  | nil => intro l; simp [leadsWith]
  | cons a as ih =>
    intro l
    cases l with
    | nil => simp [leadsWith]
    | cons b bs =>
      simp only [leadsWith, Bool.and_eq_true, beq_iff_eq, List.cons_append]
      constructor
      · rintro ⟨rfl, h⟩
        obtain ⟨t, rfl⟩ := (ih bs).1 h
        exact ⟨t, rfl⟩
      · rintro ⟨t, h⟩
        injection h with h1 h2
        exact ⟨h1.symm, (ih bs).2 ⟨t, h2⟩⟩

theorem occursIn_iff (pat : List Char) : ∀ l, occursIn pat l = true ↔ ∃ pre post, l = pre ++ pat ++ post := by
  intro l
  induction l with
  | nil =>
    simp only [occursIn, List.isEmpty_iff]
    constructor
    · rintro rfl; exact ⟨[], [], rfl⟩
    · rintro ⟨pre, post, h⟩
      rcases List.append_eq_nil.1 h.symm with ⟨h1, h2⟩
      rcases List.append_eq_nil.1 h1 with ⟨-, h3⟩
      exact h3
  | cons c rest ih =>
    simp only [occursIn, Bool.or_eq_true]
    constructor
    · rintro (h | h)
      · obtain ⟨t, ht⟩ := (leadsWith_iff pat (c :: rest)).1 h
        exact ⟨[], t, by simpa using ht⟩
      · obtain ⟨pre, post, hp⟩ := ih.1 h
        exact ⟨c :: pre, post, by simp [hp]⟩
    · rintro ⟨pre, post, hp⟩
      cases pre with
      | nil =>
        exact Or.inl ((leadsWith_iff pat (c :: rest)).2 ⟨post, by simpa using hp⟩)
      | cons p ps =>
        injection hp with h1 h2
        exact Or.inr (ih.2 ⟨ps, post, h2⟩)

theorem occursIn_trans {p m l : List Char} (h1 : occursIn p m = true)
    (h2 : occursIn m l = true) : occursIn p l = true := by
  obtain ⟨x, y, hy⟩ := (occursIn_iff m l).1 h2
  obtain ⟨a, b, hb⟩ := (occursIn_iff p m).1 h1
  subst hy
  rw [hb]
  exact (occursIn_iff p _).2 ⟨x ++ a, b ++ y, by simp [List.append_assoc]⟩

theorem containsSub_decomp (a pat b : String) : containsSub (a ++ pat ++ b) pat = true := by
  unfold containsSub
  rw [string_toList_append, string_toList_append]
  exact (occursIn_iff _ _).2 ⟨a.toList, b.toList, by simp⟩

theorem containsSub_trans {l m p : String} (h1 : containsSub m p = true)
    (h2 : containsSub l m = true) : containsSub l p = true :=
  occursIn_trans h1 h2

theorem concatAll_contains {s : String} : ∀ {l : List String}, s ∈ l →
    containsSub (concatAll l) s = true := by
  intro l
  induction l with
  | nil => intro h; cases h
  | cons x rest ih =>
    intro h
    unfold containsSub concatAll
    rw [string_toList_append]
    rcases List.mem_cons.1 h with rfl | h
    · exact occursIn_here _ _
    · exact occursIn_append_left _ _ _ (ih h)

theorem alookup_mem {α : Type} : ∀ {l : List (String × α)} {k : String} {v : α},
    alookup l k = some v → (k, v) ∈ l := by
  intro l
  induction l with
  | nil => intro k v h; cases h
  | cons p rest ih =>
    obtain ⟨k₁, v₁⟩ := p
    intro k v h
    unfold alookup at h
    by_cases hk : k₁ = k
    · rw [if_pos hk] at h
      injection h with h
      subst hk
      subst h
      exact List.mem_cons_self _ _
    · rw [if_neg hk] at h
      exact List.mem_cons_of_mem _ (ih h)

theorem foldl_entries (l : List String) (acc : String) :
    l.foldl (fun a f => a ++ "  - " ++ f ++ "\n") acc =
      acc ++ concatAll (l.map fun f => "  - " ++ f ++ "\n") := by
  induction l generalizing acc with
  | nil => simp [concatAll]
  | cons x rest ih =>
    rw [List.map_cons, List.foldl_cons, ih]
    show (acc ++ "  - " ++ x ++ "\n") ++ concatAll _ = _
    simp [concatAll, String.append_assoc]

/-- The formatter produces exactly the spec's message shape (missing names
sorted, invalid entries in input order). -/
theorem format_eq_spec (errors : List FieldError) :
    format_config_validation_error errors = spec_format errors := by
  cases h1 : missing_names errors <;> cases h2 : invalid_entries errors <;>
    simp only [format_config_validation_error, spec_format, h1, h2, foldl_entries] <;>
    (apply String.ext; simp [concatAll, String.data_append, List.append_assoc])

theorem collectErrors_nil_iff (rs : List (String × Except FieldError Value)) :
    collectErrors rs = [] ↔ ∀ p ∈ rs, ∃ v, p.2 = Except.ok v := by
  unfold collectErrors
  rw [List.filterMap_eq_nil_iff]
  constructor
  · intro h p hp
    have := h p hp
    cases hv : p.2 with
    | error e => rw [hv] at this; cases this
    | ok v => exact ⟨v, rfl⟩
  · intro h p hp
    obtain ⟨v, hv⟩ := h p hp
    rw [hv]

theorem okValues_keys : ∀ (rs : List (String × Except FieldError Value)),
    (∀ p ∈ rs, ∃ v, p.2 = Except.ok v) → (okValues rs).map Prod.fst = rs.map Prod.fst := by
  intro rs
  induction rs with
  | nil => intro _; rfl
  | cons p rest ih =>
    intro h
    obtain ⟨v, hv⟩ := h p (List.mem_cons_self p rest)
    obtain ⟨n, r⟩ := p
    simp only at hv
    subst hv
    simp only [okValues, List.filterMap_cons, List.map_cons]
    rw [show okValues rest = List.filterMap _ rest from rfl] at ih
    rw [ih fun q hq => h q (List.mem_cons_of_mem _ hq)]

theorem resolveAll_keys (pfx : String) (args : List (String × Value))
    (fc : List (List (String × String))) (vars : List (String × String))
    (fields : List FieldSpec) :
    (resolveAll pfx args fc vars fields).map Prod.fst = fields.map FieldSpec.name := by
  unfold resolveAll
  rw [List.map_map]
  rfl

theorem resolveAll_ok_lookup (pfx : String) (args : List (String × Value))
    (fc : List (List (String × String))) (vars : List (String × String)) :
    ∀ (fields : List FieldSpec), (fields.map FieldSpec.name).Nodup →
    (∀ p ∈ resolveAll pfx args fc vars fields, ∃ v, p.2 = Except.ok v) →
    ∀ fs ∈ fields, ∃ v, resolveField pfx args fc vars fs = Except.ok v ∧
      alookup (okValues (resolveAll pfx args fc vars fields)) fs.name = some v := by
  intro fields
  induction fields with
  | nil => intro _ _ fs hfs; cases hfs
  | cons g gs ih =>
    intro hnd hok fs hfs
    have hg : (g.name, resolveField pfx args fc vars g) ∈ resolveAll pfx args fc vars (g :: gs) := by
      simp [resolveAll]
    obtain ⟨v₀, hv₀⟩ := hok _ hg
    simp only at hv₀
    have hres : resolveAll pfx args fc vars (g :: gs) =
        (g.name, Except.ok v₀) :: resolveAll pfx args fc vars gs := by
      simp [resolveAll, hv₀]
    rcases List.mem_cons.1 hfs with rfl | hfs'
    · refine ⟨v₀, hv₀, ?_⟩
      rw [hres]
      simp [okValues, alookup]
    · have hne : g.name ≠ fs.name := by
        intro he
        have : fs.name ∈ gs.map FieldSpec.name := List.mem_map_of_mem _ hfs'
        rw [← he] at this
        exact (List.nodup_cons.1 hnd).1 this
      have hok' : ∀ p ∈ resolveAll pfx args fc vars gs, ∃ v, p.2 = Except.ok v := by
        intro p hp
        exact hok p (by rw [hres]; exact List.mem_cons_of_mem _ hp)
      obtain ⟨v, hv, hl⟩ := ih (List.nodup_cons.1 hnd).2 hok' fs hfs'
      refine ⟨v, hv, ?_⟩
      rw [hres]
      simp only [okValues, List.filterMap_cons]
      simp only [alookup, if_neg hne]
      exact hl

/-- From a successful construction: every declared field's recorded value is
its resolution. -/
theorem construct_ok_lookup {fields : List FieldSpec} {pfx : String}
    {args : List (String × Value)} {paths : List String} {env : Env}
    {rec : List (String × Value)}
    (hnd : (fields.map FieldSpec.name).Nodup)
    (h : construct fields pfx args paths env = Except.ok rec) :
    ∀ fs ∈ fields, ∃ v,
      resolveField pfx args (paths.filterMap fun p => alookup env.files p) env.vars fs = Except.ok v ∧
      alookup rec fs.name = some v := by
  unfold construct at h
  by_cases he : (collectErrors (resolveAll pfx args (paths.filterMap fun p => alookup env.files p) env.vars fields)).isEmpty
  · rw [if_pos he] at h
    injection h with h
    subst h
    exact resolveAll_ok_lookup _ _ _ _ fields hnd ((collectErrors_nil_iff _).1 (List.isEmpty_iff.1 he))
  · rw [if_neg he] at h
    cases h

/-- A successful construction's record has exactly the declared field names, in
declaration order. -/
theorem construct_ok_keys {fields : List FieldSpec} {pfx : String}
    {args : List (String × Value)} {paths : List String} {env : Env}
    {rec : List (String × Value)}
    (h : construct fields pfx args paths env = Except.ok rec) :
    rec.map Prod.fst = fields.map FieldSpec.name := by
  unfold construct at h
  by_cases he : (collectErrors (resolveAll pfx args (paths.filterMap fun p => alookup env.files p) env.vars fields)).isEmpty
  · rw [if_pos he] at h
    injection h with h
    subst h
    rw [okValues_keys _ ((collectErrors_nil_iff _).1 (List.isEmpty_iff.1 he))]
    exact resolveAll_keys _ _ _ _ _
  · rw [if_neg he] at h
    cases h

theorem pySetattr_keys (k : String) (v : Value) :
    ∀ self : List (String × Value), (pySetattr self k v).map Prod.fst = self.map Prod.fst := by
  intro self
  induction self with
  | nil => rfl
  | cons p rest ih =>
    simp only [pySetattr, List.map_cons] at ih ⊢
    rw [ih]
    by_cases hp : p.1 = k <;> simp [hp]

theorem alookup_pySetattr_other {k k' : String} (v : Value) (h : k' ≠ k) :
    ∀ self : List (String × Value), alookup (pySetattr self k v) k' = alookup self k' := by
  intro self
  induction self with
  | nil => rfl
  | cons p rest ih =>
    obtain ⟨k₁, v₁⟩ := p
    show alookup ((if k₁ = k then (k₁, v) else (k₁, v₁)) :: pySetattr rest k v) k' =
      alookup ((k₁, v₁) :: rest) k'
    by_cases hp : k₁ = k
    · rw [if_pos hp]
      show (if k₁ = k' then some v else alookup (pySetattr rest k v) k') =
        (if k₁ = k' then some v₁ else alookup rest k')
      rw [if_neg (fun he => h (he.symm.trans hp)), if_neg (fun he => h (he.symm.trans hp))]
      exact ih
    · rw [if_neg hp]
      show (if k₁ = k' then some v₁ else alookup (pySetattr rest k v) k') =
        (if k₁ = k' then some v₁ else alookup rest k')
      by_cases hp' : k₁ = k'
      · rw [if_pos hp', if_pos hp']
      · rw [if_neg hp', if_neg hp']
        exact ih

theorem alookup_pySetattr_same {k : String} (v : Value) :
    ∀ self : List (String × Value), k ∈ self.map Prod.fst →
    alookup (pySetattr self k v) k = some v := by
  intro self
  induction self with
  | nil => intro h; cases h
  | cons p rest ih =>
    obtain ⟨k₁, v₁⟩ := p
    intro h
    show alookup ((if k₁ = k then (k₁, v) else (k₁, v₁)) :: pySetattr rest k v) k = some v
    by_cases hp : k₁ = k
    · rw [if_pos hp]
      show (if k₁ = k then some v else alookup (pySetattr rest k v) k) = some v
      rw [if_pos hp]
    · rw [if_neg hp]
      show (if k₁ = k then some v₁ else alookup (pySetattr rest k v) k) = some v
      rw [if_neg hp]
      refine ih ?_
      rw [List.map_cons] at h
      rcases List.mem_cons.1 h with he | hm
      · exact absurd he.symm hp
      · exact hm

theorem pyGetattr_pySetattr_other {k k' : String} (v : Value) (h : k' ≠ k)
    (self : List (String × Value)) :
    pyGetattr (pySetattr self k v) k' = pyGetattr self k' := by
  unfold pyGetattr
  rw [alookup_pySetattr_other v h self]

theorem pyGetattr_pySetattr_same {k : String} (v : Value) (self : List (String × Value))
    (h : k ∈ self.map Prod.fst) :
    pyGetattr (pySetattr self k v) k = v := by
  unfold pyGetattr
  rw [alookup_pySetattr_same v self h]
  rfl

theorem nodup_keys_eq {l : List (String × Value)} (h : (l.map Prod.fst).Nodup)
    {p q : String × Value} (hp : p ∈ l) (hq : q ∈ l) (hk : p.1 = q.1) : p = q := by
  induction l with
  | nil => cases hp
  | cons x rest ih =>
    rw [List.map_cons] at h
    have hx : x.1 ∉ rest.map Prod.fst := (List.nodup_cons.1 h).1
    have hrest : (rest.map Prod.fst).Nodup := (List.nodup_cons.1 h).2
    rcases List.mem_cons.1 hp with rfl | hp' <;> rcases List.mem_cons.1 hq with rfl | hq'
    · rfl
    · exact absurd (hk ▸ List.mem_map_of_mem Prod.fst hq') hx
    · exact absurd (hk ▸ List.mem_map_of_mem Prod.fst hp') (by rw [← hk] at hx ⊢; exact hx)
    · exact ih hrest hp' hq'

/-- Full characterization of the reload diff loop over new values with distinct
keys, all declared on the live record: the emitted log lines are exactly the
changed fields' lines in order, the key set is preserved, every processed field
ends at its new value, and untouched keys keep their old value. -/
theorem reloadLoop_spec :
    ∀ (newVals self : List (String × Value)),
    (newVals.map Prod.fst).Nodup →
    (∀ k, k ∈ newVals.map Prod.fst → k ∈ self.map Prod.fst) →
    (reloadLoop self newVals).2 =
      (newVals.filter fun p => p.2 ≠ pyGetattr self p.1).map (fun p => reload_log p.1) ∧
    (reloadLoop self newVals).1.map Prod.fst = self.map Prod.fst ∧
    (∀ p ∈ newVals, pyGetattr (reloadLoop self newVals).1 p.1 = p.2) ∧
    (∀ k, k ∉ newVals.map Prod.fst → pyGetattr (reloadLoop self newVals).1 k = pyGetattr self k) := by
  intro newVals
  induction newVals with
  | nil =>
    intro self _ _
    refine ⟨rfl, rfl, ?_, ?_⟩
    · intro p hp; cases hp
    · intro k _; rfl
  | cons q rest ih =>
    obtain ⟨k, v⟩ := q
    intro self hnd hmem
    have hnd' : (k :: rest.map Prod.fst).Nodup := by rw [List.map_cons] at hnd; exact hnd
    have hknot : k ∉ rest.map Prod.fst := (List.nodup_cons.1 hnd').1
    have hndr : (rest.map Prod.fst).Nodup := (List.nodup_cons.1 hnd').2
    have hkself : k ∈ self.map Prod.fst := hmem k (by simp)
    by_cases hch : v = pyGetattr self k
    · have hloop : reloadLoop self ((k, v) :: rest) = reloadLoop self rest := by
        simp only [reloadLoop]
        rw [if_neg (by simpa using hch)]
      obtain ⟨ha, hb, hc, hd⟩ := ih self hndr (fun k' hk' => hmem k' (by simp [hk']))
      rw [hloop]
      refine ⟨?_, hb, ?_, ?_⟩
      · rw [ha, List.filter_cons,
          if_neg (by simpa using hch : ¬(fun p => decide (p.2 ≠ pyGetattr self p.1)) (k, v) = true)]
      · intro p hp
        rcases List.mem_cons.1 hp with rfl | hp'
        · show pyGetattr (reloadLoop self rest).1 k = v
          rw [hd k hknot, ← hch]
        · exact hc p hp'
      · intro k' hk'
        exact hd k' (fun hm => hk' (by simp [hm]))
    · have hloop : reloadLoop self ((k, v) :: rest) =
          ((reloadLoop (pySetattr self k v) rest).1,
            reload_log k :: (reloadLoop (pySetattr self k v) rest).2) := by
        simp only [reloadLoop]
        rw [if_pos (by simpa using hch)]
      have hmem' : ∀ k', k' ∈ rest.map Prod.fst → k' ∈ (pySetattr self k v).map Prod.fst := by
        intro k' hk'
        rw [pySetattr_keys]
        exact hmem k' (by simp [hk'])
      obtain ⟨ha, hb, hc, hd⟩ := ih (pySetattr self k v) hndr hmem'
      have hrest_filter :
          (rest.filter fun p => p.2 ≠ pyGetattr (pySetattr self k v) p.1) =
          (rest.filter fun p => p.2 ≠ pyGetattr self p.1) := by
        apply List.filter_congr
        intro p hp
        have hpk : p.1 ≠ k := fun he => hknot (he ▸ List.mem_map_of_mem Prod.fst hp)
        rw [pyGetattr_pySetattr_other v hpk]
      rw [hloop]
      refine ⟨?_, ?_, ?_, ?_⟩
      · show reload_log k :: (reloadLoop (pySetattr self k v) rest).2 = _
        rw [ha, hrest_filter, List.filter_cons,
          if_pos (by simpa using hch : (fun p => decide (p.2 ≠ pyGetattr self p.1)) (k, v) = true)]
        rfl
      · show (reloadLoop (pySetattr self k v) rest).1.map Prod.fst = _
        rw [hb, pySetattr_keys]
      · intro p hp
        rcases List.mem_cons.1 hp with rfl | hp'
        · show pyGetattr (reloadLoop (pySetattr self k v) rest).1 k = v
          rw [hd k hknot, pyGetattr_pySetattr_same v self hkself]
        · exact hc p hp'
      · intro k' hk'
        have hk'k : k' ≠ k := fun he => hk' (by simp [he])
        have hk'r : k' ∉ rest.map Prod.fst := fun hm => hk' (by simp [hm])
        show pyGetattr (reloadLoop (pySetattr self k v) rest).1 k' = pyGetattr self k'
        rw [hd k' hk'r, pyGetattr_pySetattr_other v hk'k]

theorem containsSub_append_right {b pat : String} (a : String) (h : containsSub b pat = true) :
    containsSub (a ++ b) pat = true := by
  unfold containsSub at h ⊢
  rw [string_toList_append]
  exact occursIn_append_left _ _ _ h

theorem containsSub_append_left {a pat : String} (b : String) (h : containsSub a pat = true) :
    containsSub (a ++ b) pat = true := by
  unfold containsSub at h ⊢
  rw [string_toList_append]
  obtain ⟨pre, post, hp⟩ := (occursIn_iff _ _).1 h
  exact (occursIn_iff _ _).2 ⟨pre, post ++ b.toList, by rw [hp]; simp [List.append_assoc]⟩

theorem containsSub_append_self (a pat : String) : containsSub (a ++ pat) pat = true := by
  unfold containsSub
  rw [string_toList_append]
  exact (occursIn_iff _ _).2 ⟨a.toList, [], by simp⟩

/-- Inversion of a successful `load`: the construction succeeded with the same
record. -/
theorem load_ok_construct {fields : List FieldSpec} {pfx : String} {env : Env}
    {pkg : String} {an av fv : Option String} {lc : Bool} {rec : List (String × Value)}
    (h : (load fields pfx env pkg an av fv lc).2 = Except.ok rec) :
    construct fields pfx
      (load_args (resolve_version env pkg av fv) (resolve_app_name pkg an)
        (dot_env_var env pfx) (dot_env_secrets_var env pfx))
      (load_env_files env pfx) env = Except.ok rec := by
  unfold load at h
  cases hcon : construct fields pfx
      (load_args (resolve_version env pkg av fv) (resolve_app_name pkg an)
        (dot_env_var env pfx) (dot_env_secrets_var env pfx))
      (load_env_files env pfx) env with
  | ok s =>
    rw [hcon] at h
    simp at h
    subst h
    rfl
  | error e =>
    rw [hcon] at h
    simp at h

/-- The warnings are always a front segment of the lines `load` logs. -/
theorem load_fst_decomp (fields : List FieldSpec) (pfx : String) (env : Env)
    (pkg : String) (an av fv : Option String) (lc : Bool) :
    ∃ t, (load fields pfx env pkg an av fv lc).1 = load_warnings env pfx ++ t := by
  unfold load
  cases hcon : construct fields pfx
      (load_args (resolve_version env pkg av fv) (resolve_app_name pkg an)
        (dot_env_var env pfx) (dot_env_secrets_var env pfx))
      (load_env_files env pfx) env with
  | ok s => exact ⟨_, rfl⟩
  | error e => exact ⟨[], by simp⟩

/-! ### Concrete fixtures -/

/-- A required string-typed field (no default, every raw string valid). -/
def strField (n : String) : FieldSpec := ⟨n, none, fun _ => none⟩

/-- An `Optional[str]` field with default `None`, every raw string valid. -/
def optField (n : String) : FieldSpec := ⟨n, some none, fun _ => none⟩

/-- The four fields `PABaseSettings` itself declares, in declaration order. -/
def base_fields : List FieldSpec :=
  [optField "dot_env", optField "dot_env_secrets", strField "app_name", strField "app_version"]

/-- An empty world: no environment variables, no files, no installed package. -/
def env0 : Env := ⟨[], [], fun _ => none⟩

/-! ### Claim C4 -/

/-- Claim C4, counterexample: the output of `format_config_validation_error` is
not stable under every reordering of the input error entries — swapping two
invalid-field entries changes the message, because only the missing-field names
are sorted while invalid entries are listed in input order. -/
theorem claim_C4_counterexample :
    format_config_validation_error
      [.invalid ["a"] "m1", .invalid ["b"] "m2"] ≠
    format_config_validation_error
      [.invalid ["b"] "m2", .invalid ["a"] "m1"] := by decide

/-- Claim C4 (amended): the formatter returns the multi-line message consisting
of a header, then (only if any) the alphabetically sorted missing field names,
then (only if any) the `field: message` invalid entries in input order, then
the closing hint; and the output is stable under any reordering of the input
error entries that permutes the missing entries while preserving the invalid
entries' relative order. -/
theorem claim_C4_format_shape_and_stability :
    (∀ errors : List FieldError,
      format_config_validation_error errors = spec_format errors) ∧
    (∀ e₁ e₂ : List FieldError,
      List.Perm (missing_names e₁) (missing_names e₂) →
      invalid_entries e₁ = invalid_entries e₂ →
      format_config_validation_error e₁ = format_config_validation_error e₂) := by
  refine ⟨format_eq_spec, ?_⟩
  intro e₁ e₂ hperm hinv
  rw [format_eq_spec, format_eq_spec]
  unfold spec_format
  have hsort : List.insertionSort (· ≤ ·) (missing_names e₁) =
      List.insertionSort (· ≤ ·) (missing_names e₂) :=
    List.eq_of_perm_of_sorted
      ((List.perm_insertionSort _ _).trans (hperm.trans (List.perm_insertionSort _ _).symm))
      (List.sorted_insertionSort _ _) (List.sorted_insertionSort _ _)
  have hnil : missing_names e₁ = [] ↔ missing_names e₂ = [] := by
    constructor
    · intro h; exact (h ▸ hperm).symm.eq_nil
    · intro h; exact (h ▸ hperm.symm).symm.eq_nil
  rw [hinv, hsort]
  by_cases h2 : missing_names e₂ = []
  · rw [if_pos (hnil.2 h2), if_pos h2]
  · rw [if_neg (fun h => h2 (hnil.1 h)), if_neg h2]

/-- Claim C4, witness: the stability part applied to a concrete permutation of
two missing-field entries. -/
theorem claim_C4_witness :
    format_config_validation_error [.missing ["b"], .missing ["a"]] =
    format_config_validation_error [.missing ["a"], .missing ["b"]] :=
  claim_C4_format_shape_and_stability.2 _ _ (by decide) rfl

/-! ### Claim C2 -/

/-- Claim C2: if the rebuild performed by `reload` fails validation, the error
propagates to the caller (first component `some errors`), every field of the
live instance keeps its prior value (the record is returned unchanged), and no
log line is emitted. -/
theorem claim_C2_reload_atomic (fields : List FieldSpec) (pfx : String) (env : Env)
    (self : List (String × Value)) (errs : List FieldError)
    (h : construct fields pfx (reload_args self) (reload_env_files self) env =
      Except.error errs) :
    reload fields pfx env self = (some errs, self, []) := by
  unfold reload
  rw [h]

/-- The record of a live instance whose class declares a required field `x`
that no source supplies. -/
def self_missing_x : List (String × Value) :=
  [("dot_env", none), ("dot_env_secrets", none),
   ("app_name", some "App"), ("app_version", some "1.0"), ("x", some "old")]

/-- Claim C2, witness: a reload whose rebuild misses the required field `x`
signals the error and leaves the record unchanged. -/
theorem claim_C2_witness :
    reload (base_fields ++ [strField "x"]) "" env0 self_missing_x =
      (some [.missing ["x"]], self_missing_x, []) :=
  claim_C2_reload_atomic (base_fields ++ [strField "x"]) "" env0 self_missing_x
    [.missing ["x"]] rfl

/-! ### Claim C5 -/

theorem splitUnderscore_ne_nil (l : List Char) : ∃ w ws, splitUnderscore l = w :: ws := by
  cases l with
  | nil => exact ⟨[], [], rfl⟩
  | cons c rest =>
    cases hs : splitUnderscore rest with
    | nil => exact ⟨[], [], by simp [splitUnderscore, hs]⟩
    | cons w ws =>
      by_cases hc : c = '_'
      · exact ⟨[], w :: ws, by simp [splitUnderscore, hs, hc]⟩
      · exact ⟨c :: w, ws, by simp [splitUnderscore, hs, hc]⟩

theorem string_mk_ne_empty (c : Char) (l : List Char) : String.mk (c :: l) ≠ "" := by
  intro h
  have hd := congrArg String.data h
  simp at hd

theorem derive_app_name_ne_empty (pkg : String) (h : pkg ≠ "") : derive_app_name pkg ≠ "" := by
  unfold derive_app_name
  have hl : pkg.toList ≠ [] := fun hnil => h (String.ext (hnil.trans rfl))
  cases hlc : pkg.toList.map dashToUnderscore with
  | nil => exact absurd (List.map_eq_nil_iff.1 hlc) hl
  | cons c rest =>
    obtain ⟨w, ws, hws⟩ := splitUnderscore_ne_nil rest
    have hsu : splitUnderscore (c :: rest) =
        if c = '_' then [] :: w :: ws else (c :: w) :: ws := by
      simp [splitUnderscore, hws]
    rw [hsu]
    by_cases hc : c = '_'
    · rw [if_pos hc]
      exact string_mk_ne_empty ' ' _
    · rw [if_neg hc]
      cases ws with
      | nil => exact string_mk_ne_empty c.toUpper _
      | cons w₂ ws₂ => exact string_mk_ne_empty c.toUpper _

theorem resolve_app_name_ne_empty (pkg : String) (an : Option String) (h : pkg ≠ "") :
    resolve_app_name pkg an ≠ "" := by
  unfold resolve_app_name
  cases an with
  | none => exact derive_app_name_ne_empty pkg h
  | some n =>
    show (if n = "" then derive_app_name pkg else n) ≠ ""
    by_cases hn : n = ""
    · rw [if_pos hn]; exact derive_app_name_ne_empty pkg h
    · rw [if_neg hn]; exact hn

theorem version_from_importlib_ne_empty (env : Env) (pkg : String) (fv : Option String)
    (hmeta : ∀ v, env.metadataVersion pkg = some v → v ≠ "") :
    version_from_importlib env pkg fv ≠ "" := by
  unfold version_from_importlib
  cases hm : env.metadataVersion pkg with
  | some m => exact hmeta m hm
  | none =>
    cases fv with
    | none => decide
    | some f =>
      show (if f = "" then "0.0.0-dev" else f) ≠ ""
      by_cases hf : f = ""
      · rw [if_pos hf]; decide
      · rw [if_neg hf]; exact hf

theorem resolve_version_ne_empty (env : Env) (pkg : String) (av fv : Option String)
    (hmeta : ∀ v, env.metadataVersion pkg = some v → v ≠ "") :
    resolve_version env pkg av fv ≠ "" := by
  unfold resolve_version
  cases av with
  | none => exact version_from_importlib_ne_empty env pkg fv hmeta
  | some v =>
    show (if v = "" then version_from_importlib env pkg fv else v) ≠ ""
    by_cases hv : v = ""
    · rw [if_pos hv]; exact version_from_importlib_ne_empty env pkg fv hmeta
    · rw [if_neg hv]; exact hv

theorem alookup_load_args_app_name (V P : String) (d s : Option String) :
    alookup (load_args V P d s) "app_name" = some (some P) := by
  simp [load_args, alookup]

theorem alookup_load_args_app_version (V P : String) (d s : Option String) :
    alookup (load_args V P d s) "app_version" = some (some V) := by
  simp [load_args, alookup]

/-- After a successful `load`, the record's `app_name` is the resolved pretty
name (it is passed as a constructor argument, the highest-precedence source). -/
theorem load_ok_lookup_name {fields : List FieldSpec} {pfx : String} {env : Env}
    {pkg : String} {an av fv : Option String} {lc : Bool} {rec : List (String × Value)}
    (hnd : (fields.map FieldSpec.name).Nodup)
    (hex : ∃ fs ∈ fields, fs.name = "app_name")
    (hok : (load fields pfx env pkg an av fv lc).2 = Except.ok rec) :
    alookup rec "app_name" = some (some (resolve_app_name pkg an)) := by
  obtain ⟨fs, hmem, hname⟩ := hex
  obtain ⟨v, hres, hlook⟩ := construct_ok_lookup hnd (load_ok_construct hok) fs hmem
  unfold resolveField at hres
  rw [hname] at hres hlook
  rw [alookup_load_args_app_name] at hres
  simp at hres
  rw [hlook, hres]

/-- After a successful `load`, the record's `app_version` is the resolved
version (it is passed as a constructor argument, the highest-precedence
source). -/
theorem load_ok_lookup_version {fields : List FieldSpec} {pfx : String} {env : Env}
    {pkg : String} {an av fv : Option String} {lc : Bool} {rec : List (String × Value)}
    (hnd : (fields.map FieldSpec.name).Nodup)
    (hex : ∃ fs ∈ fields, fs.name = "app_version")
    (hok : (load fields pfx env pkg an av fv lc).2 = Except.ok rec) :
    alookup rec "app_version" = some (some (resolve_version env pkg av fv)) := by
  obtain ⟨fs, hmem, hname⟩ := hex
  obtain ⟨v, hres, hlook⟩ := construct_ok_lookup hnd (load_ok_construct hok) fs hmem
  unfold resolveField at hres
  rw [hname] at hres hlook
  rw [alookup_load_args_app_version] at hres
  simp at hres
  rw [hlook, hres]

/-- Claim C5, counterexample: with the empty package identifier and no explicit
name, `load` succeeds and the constructed record's `app_name` is the empty
string — the claimed invariant that `app_name` is always non-empty after
successful construction fails. -/
theorem claim_C5_counterexample :
    (load base_fields "" env0 "" none none none true).2 =
      Except.ok [("dot_env", none), ("dot_env_secrets", none),
                 ("app_name", some ""), ("app_version", some "0.0.0-dev")] := rfl

/-- Claim C5 (amended): after a successful `load` with a non-empty package
identifier (and granted that installed-package metadata versions are non-empty
strings), the record's `app_name` and `app_version` are non-empty strings. -/
theorem claim_C5_nonempty_identity (fields : List FieldSpec) (pfx : String) (env : Env)
    (pkg : String) (an av fv : Option String) (lc : Bool) (rec : List (String × Value))
    (hnd : (fields.map FieldSpec.name).Nodup)
    (hname : ∃ fs ∈ fields, fs.name = "app_name")
    (hver : ∃ fs ∈ fields, fs.name = "app_version")
    (hpkg : pkg ≠ "")
    (hmeta : ∀ v, env.metadataVersion pkg = some v → v ≠ "")
    (hok : (load fields pfx env pkg an av fv lc).2 = Except.ok rec) :
    (∃ a, alookup rec "app_name" = some (some a) ∧ a ≠ "") ∧
    (∃ b, alookup rec "app_version" = some (some b) ∧ b ≠ "") :=
  ⟨⟨resolve_app_name pkg an, load_ok_lookup_name hnd hname hok,
    resolve_app_name_ne_empty pkg an hpkg⟩,
   ⟨resolve_version env pkg av fv, load_ok_lookup_version hnd hver hok,
    resolve_version_ne_empty env pkg av fv hmeta⟩⟩

/-- The record produced by loading package `my-cool-app` in the empty world. -/
def rec_cool : List (String × Value) :=
  [("dot_env", none), ("dot_env_secrets", none),
   ("app_name", some "My Cool App"), ("app_version", some "0.0.0-dev")]

/-- Claim C5, witness: the amended statement applied to package identifier
`my-cool-app` in the empty world. -/
theorem claim_C5_witness :
    (∃ a, alookup rec_cool "app_name" = some (some a) ∧ a ≠ "") ∧
    (∃ b, alookup rec_cool "app_version" = some (some b) ∧ b ≠ "") :=
  claim_C5_nonempty_identity base_fields "" env0 "my-cool-app" none none none false rec_cool
    (by decide)
    ⟨strField "app_name", List.Mem.tail _ (List.Mem.tail _ (List.Mem.head _)), rfl⟩
    ⟨strField "app_version",
      List.Mem.tail _ (List.Mem.tail _ (List.Mem.tail _ (List.Mem.head _))), rfl⟩
    (by decide)
    (fun v h => Option.noConfusion h)
    rfl

/-! ### Claim C8 -/

/-- Claim C8, counterexample: the explicit `app_version` argument `""` is given
yet ignored (Python truthiness), so with unresolvable metadata and no fallback
the record's version is the sentinel `"0.0.0-dev"`, not the given argument. -/
theorem claim_C8_counterexample :
    (load base_fields "" env0 "pkg" (some "App") (some "") none false).2 =
      Except.ok [("dot_env", none), ("dot_env_secrets", none),
                 ("app_name", some "App"), ("app_version", some "0.0.0-dev")] := rfl

/-- Claim C8 (amended): `load` resolves `app_version` by the chain: the
explicit argument if given and non-empty; else the installed metadata version;
else (on package-not-found) the fallback argument if given and non-empty; else
the sentinel `"0.0.0-dev"`; and the constructed record carries exactly this
resolved version. -/
theorem claim_C8_version_chain (fields : List FieldSpec) (pfx : String) (env : Env)
    (pkg : String) (an av fv : Option String) (lc : Bool) (rec : List (String × Value))
    (hnd : (fields.map FieldSpec.name).Nodup)
    (hver : ∃ fs ∈ fields, fs.name = "app_version")
    (hok : (load fields pfx env pkg an av fv lc).2 = Except.ok rec) :
    alookup rec "app_version" = some (some (resolve_version env pkg av fv)) ∧
    (∀ v, av = some v → v ≠ "" → resolve_version env pkg av fv = v) ∧
    ((av = none ∨ av = some "") → ∀ m, env.metadataVersion pkg = some m →
      resolve_version env pkg av fv = m) ∧
    ((av = none ∨ av = some "") → env.metadataVersion pkg = none →
      ∀ f, fv = some f → f ≠ "" → resolve_version env pkg av fv = f) ∧
    ((av = none ∨ av = some "") → env.metadataVersion pkg = none →
      (fv = none ∨ fv = some "") → resolve_version env pkg av fv = "0.0.0-dev") := by
  refine ⟨load_ok_lookup_version hnd hver hok, ?_, ?_, ?_, ?_⟩
  · rintro v rfl hv
    simp [resolve_version, hv]
  · rintro (rfl | rfl) m hm <;> simp [resolve_version, version_from_importlib, hm]
  · rintro (rfl | rfl) hm f rfl hf <;> simp [resolve_version, version_from_importlib, hm, hf]
  · rintro (rfl | rfl) hm (rfl | rfl) <;> simp [resolve_version, version_from_importlib, hm]

/-- The record produced by loading with an installed metadata version `1.2.3`. -/
def rec_meta : List (String × Value) :=
  [("dot_env", none), ("dot_env_secrets", none),
   ("app_name", some "Pkg"), ("app_version", some "1.2.3")]

/-- A world whose only feature is an installed package `pkg` at version
`1.2.3`. -/
def env_meta : Env :=
  ⟨[], [], fun n => if n = "pkg" then some "1.2.3" else none⟩

/-- Claim C8, witness: the amended chain applied with no explicit version and
resolvable metadata — the metadata version is used and recorded. -/
theorem claim_C8_witness :
    alookup rec_meta "app_version" = some (some (resolve_version env_meta "pkg" none none)) ∧
    resolve_version env_meta "pkg" none none = "1.2.3" :=
  ⟨(claim_C8_version_chain base_fields "" env_meta "pkg" none none none false rec_meta
      (by decide)
      ⟨strField "app_version",
        List.Mem.tail _ (List.Mem.tail _ (List.Mem.tail _ (List.Mem.head _))), rfl⟩
      rfl).1,
   (claim_C8_version_chain base_fields "" env_meta "pkg" none none none false rec_meta
      (by decide)
      ⟨strField "app_version",
        List.Mem.tail _ (List.Mem.tail _ (List.Mem.tail _ (List.Mem.head _))), rfl⟩
      rfl).2.2.1 (Or.inl rfl) "1.2.3" rfl⟩

/-! ### Claim C9 -/

/-- Claim C9: when `DOT_ENV` or `DOT_ENV_SECRETS` names a path that does not
exist as a regular file, `load` emits the corresponding warning log line and
does not fail on that account — the construction proceeds without that file's
contents and `load` returns whatever record it produces when it validates. -/
theorem claim_C9_missing_file_tolerance (fields : List FieldSpec) (pfx : String)
    (env : Env) (pkg : String) (an av fv : Option String) (lc : Bool) :
    (∀ p, dot_env_var env pfx = some p → p ≠ "" → alookup env.files p = none →
      warn_missing_dot_env p ∈ (load fields pfx env pkg an av fv lc).1) ∧
    (∀ p, dot_env_secrets_var env pfx = some p → p ≠ "" → alookup env.files p = none →
      warn_missing_secrets p ∈ (load fields pfx env pkg an av fv lc).1) ∧
    (∀ rec, construct fields pfx
        (load_args (resolve_version env pkg av fv) (resolve_app_name pkg an)
          (dot_env_var env pfx) (dot_env_secrets_var env pfx))
        (load_env_files env pfx) env = Except.ok rec →
      (load fields pfx env pkg an av fv lc).2 = Except.ok rec) := by
  obtain ⟨t, ht⟩ := load_fst_decomp fields pfx env pkg an av fv lc
  refine ⟨?_, ?_, ?_⟩
  · intro p hp hp0 hnone
    rw [ht]
    apply List.mem_append_left
    unfold load_warnings
    apply List.mem_append_left
    rw [hp]
    show warn_missing_dot_env p ∈
      (if p ≠ "" ∧ (alookup env.files p).isNone then [warn_missing_dot_env p] else [])
    rw [if_pos ⟨hp0, by rw [hnone]; rfl⟩]
    exact List.mem_cons_self _ _
  · intro p hp hp0 hnone
    rw [ht]
    apply List.mem_append_left
    unfold load_warnings
    apply List.mem_append_right
    rw [hp]
    show warn_missing_secrets p ∈
      (if p ≠ "" ∧ (alookup env.files p).isNone then [warn_missing_secrets p] else [])
    rw [if_pos ⟨hp0, by rw [hnone]; rfl⟩]
    exact List.mem_cons_self _ _
  · intro rec hc
    unfold load
    rw [hc]

/-- A world where `DOT_ENV` names a path that is not an existing file. -/
def env_noenvfile : Env := ⟨[("DOT_ENV", "/nope")], [], fun _ => none⟩

/-- The record `load` produces in `env_noenvfile` for package `pkg`. -/
def rec_noenvfile : List (String × Value) :=
  [("dot_env", some "/nope"), ("dot_env_secrets", none),
   ("app_name", some "Pkg"), ("app_version", some "0.0.0-dev")]

/-- Claim C9, witness: a nonexistent `DOT_ENV` path yields the warning log line
and construction still succeeds. -/
theorem claim_C9_witness :
    warn_missing_dot_env "/nope" ∈
      (load base_fields "" env_noenvfile "pkg" none none none false).1 ∧
    (load base_fields "" env_noenvfile "pkg" none none none false).2 =
      Except.ok rec_noenvfile :=
  ⟨(claim_C9_missing_file_tolerance base_fields "" env_noenvfile "pkg" none none none
      false).1 "/nope" rfl (by decide) rfl,
   (claim_C9_missing_file_tolerance base_fields "" env_noenvfile "pkg" none none none
      false).2.2 rec_noenvfile rfl⟩

/-! ### Claim C1 -/

/-- Claim C1: for a declared consumer field resolved by `load`, the precedence
is secrets file > base file > process environment > default. In particular,
with both override files configured and existing: a field set in the process
environment, the base file, and the secrets file resolves to the secrets-file
value; and a field set in the base file but not the secrets file resolves to
the base-file value. -/
theorem claim_C1_precedence (fields : List FieldSpec) (pfx : String) (env : Env)
    (pkg : String) (an av fv : Option String) (lc : Bool) (rec : List (String × Value))
    (fs : FieldSpec) (bp sp : String) (base secrets : List (String × String))
    (hnd : (fields.map FieldSpec.name).Nodup)
    (hfs : fs ∈ fields)
    (hid1 : fs.name ≠ "app_version") (hid2 : fs.name ≠ "app_name")
    (hid3 : fs.name ≠ "dot_env") (hid4 : fs.name ≠ "dot_env_secrets")
    (hbp : dot_env_var env pfx = some bp) (hbp0 : bp ≠ "")
    (hsp : dot_env_secrets_var env pfx = some sp) (hsp0 : sp ≠ "")
    (hbase : alookup env.files bp = some base)
    (hsec : alookup env.files sp = some secrets)
    (hok : (load fields pfx env pkg an av fv lc).2 = Except.ok rec) :
    (∀ e b w, alookup env.vars (pfx ++ fs.name) = some e →
      alookup base (pfx ++ fs.name) = some b →
      alookup secrets (pfx ++ fs.name) = some w → fs.invalidMsg w = none →
      alookup rec fs.name = some (some w)) ∧
    (∀ w, alookup secrets (pfx ++ fs.name) = none →
      alookup base (pfx ++ fs.name) = some w → fs.invalidMsg w = none →
      alookup rec fs.name = some (some w)) := by
  obtain ⟨v, hres, hlook⟩ := construct_ok_lookup hnd (load_ok_construct hok) fs hfs
  have hargs : alookup (load_args (resolve_version env pkg av fv) (resolve_app_name pkg an)
      (dot_env_var env pfx) (dot_env_secrets_var env pfx)) fs.name = none := by
    simp [load_args, alookup, Ne.symm hid1, Ne.symm hid2, Ne.symm hid3, Ne.symm hid4]
  have hfc : (load_env_files env pfx).filterMap (fun p => alookup env.files p) =
      [base, secrets] := by
    unfold load_env_files
    rw [hbp, hsp]
    show ((if bp = "" then [] else [bp]) ++ (if sp = "" then [] else [sp])).filterMap
      (fun p => alookup env.files p) = [base, secrets]
    rw [if_neg hbp0, if_neg hsp0]
    simp [List.filterMap_cons, hbase, hsec]
  rw [hfc] at hres
  constructor
  · intro e b w _ _ hw hval
    have hcomp : resolveField pfx
        (load_args (resolve_version env pkg av fv) (resolve_app_name pkg an)
          (dot_env_var env pfx) (dot_env_secrets_var env pfx))
        [base, secrets] env.vars fs = Except.ok (some w) := by
      simp [resolveField, hargs, firstHit, hw, validateRaw, hval]
    rw [hcomp] at hres
    rw [hlook]
    injection hres with hv
    rw [hv]
  · intro w hwnone hw hval
    have hcomp : resolveField pfx
        (load_args (resolve_version env pkg av fv) (resolve_app_name pkg an)
          (dot_env_var env pfx) (dot_env_secrets_var env pfx))
        [base, secrets] env.vars fs = Except.ok (some w) := by
      simp [resolveField, hargs, firstHit, hwnone, hw, validateRaw, hval]
    rw [hcomp] at hres
    rw [hlook]
    injection hres with hv
    rw [hv]

/-- A world with both override files configured: the environment, the base file
and the secrets file all set `x`; only the environment and the base file set
`y`. -/
def env_prec : Env :=
  ⟨[("DOT_ENV", "/b"), ("DOT_ENV_SECRETS", "/s"), ("x", "envx"), ("y", "envy")],
   [("/b", [("x", "basex"), ("y", "basey")]), ("/s", [("x", "secx")])],
   fun _ => none⟩

/-- The consumer class declaring the fields `x` and `y` on top of the base
fields. -/
def fields_xy : List FieldSpec := base_fields ++ [strField "x", strField "y"]

/-- The record `load` produces in `env_prec`. -/
def rec_prec : List (String × Value) :=
  [("dot_env", some "/b"), ("dot_env_secrets", some "/s"),
   ("app_name", some "Pkg"), ("app_version", some "0.0.0-dev"),
   ("x", some "secx"), ("y", some "basey")]

/-- Claim C1, witness: `x` (set everywhere) resolves to the secrets value and
`y` (set only in environment and base file) resolves to the base value. -/
theorem claim_C1_witness :
    alookup rec_prec "x" = some (some "secx") ∧
    alookup rec_prec "y" = some (some "basey") :=
  ⟨(claim_C1_precedence fields_xy "" env_prec "pkg" none none none false rec_prec
      (strField "x") "/b" "/s" [("x", "basex"), ("y", "basey")] [("x", "secx")]
      (by decide)
      (List.Mem.tail _ (List.Mem.tail _ (List.Mem.tail _ (List.Mem.tail _
        (List.Mem.head _)))))
      (by decide) (by decide) (by decide) (by decide)
      rfl (by decide) rfl (by decide) rfl rfl rfl).1
    "envx" "basex" "secx" rfl rfl rfl rfl,
   (claim_C1_precedence fields_xy "" env_prec "pkg" none none none false rec_prec
      (strField "y") "/b" "/s" [("x", "basex"), ("y", "basey")] [("x", "secx")]
      (by decide)
      (List.Mem.tail _ (List.Mem.tail _ (List.Mem.tail _ (List.Mem.tail _
        (List.Mem.tail _ (List.Mem.head _))))))
      (by decide) (by decide) (by decide) (by decide)
      rfl (by decide) rfl (by decide) rfl rfl rfl).2
    "basey" rfl rfl rfl⟩

/-! ### Claim C3 -/

/-- Claim C3: when construction inside `load` fails validation, all field
errors of the single validation pass are surfaced as one fatal error carrying
the formatted multi-line message; that message contains every missing field
name and every invalid field's message, and no record is returned. -/
theorem claim_C3_error_aggregation (fields : List FieldSpec) (pfx : String) (env : Env)
    (pkg : String) (an av fv : Option String) (lc : Bool) (errs : List FieldError)
    (hc : construct fields pfx
        (load_args (resolve_version env pkg av fv) (resolve_app_name pkg an)
          (dot_env_var env pfx) (dot_env_secrets_var env pfx))
        (load_env_files env pfx) env = Except.error errs) :
    (load fields pfx env pkg an av fv lc).2 =
      Except.error (format_config_validation_error errs) ∧
    (∀ loc, FieldError.missing loc ∈ errs →
      containsSub (format_config_validation_error errs) (locName loc) = true) ∧
    (∀ loc msg, FieldError.invalid loc msg ∈ errs →
      containsSub (format_config_validation_error errs) msg = true) := by
  refine ⟨?_, ?_, ?_⟩
  · unfold load
    rw [hc]
  · intro loc hmem
    have h1 : locName loc ∈ missing_names errs :=
      List.mem_filterMap.2 ⟨.missing loc, hmem, rfl⟩
    have hne : missing_names errs ≠ [] := List.ne_nil_of_mem h1
    have h2 : locName loc ∈ List.insertionSort (· ≤ ·) (missing_names errs) :=
      (List.mem_insertionSort _).2 h1
    have h3 : ("  - " ++ locName loc ++ "\n") ∈
        (List.insertionSort (· ≤ ·) (missing_names errs)).map (fun f => "  - " ++ f ++ "\n") :=
      List.mem_map_of_mem _ h2
    have h4 := concatAll_contains h3
    have h5 : containsSub ("  - " ++ locName loc ++ "\n") (locName loc) = true :=
      containsSub_decomp _ _ _
    have h6 := containsSub_trans h5 h4
    rw [format_eq_spec]
    unfold spec_format
    rw [if_neg hne]
    apply containsSub_append_left
    apply containsSub_append_left
    apply containsSub_append_right
    apply containsSub_append_right
    exact h6
  · intro loc msg hmem
    have h1 : (locName loc ++ ": " ++ msg) ∈ invalid_entries errs :=
      List.mem_filterMap.2 ⟨.invalid loc msg, hmem, rfl⟩
    have hne : invalid_entries errs ≠ [] := List.ne_nil_of_mem h1
    have h3 : ("  - " ++ (locName loc ++ ": " ++ msg) ++ "\n") ∈
        (invalid_entries errs).map (fun f => "  - " ++ f ++ "\n") :=
      List.mem_map_of_mem _ h1
    have h4 := concatAll_contains h3
    have h5 : containsSub (locName loc ++ ": " ++ msg) msg = true :=
      containsSub_append_self _ _
    have h5' : containsSub ("  - " ++ (locName loc ++ ": " ++ msg) ++ "\n")
        (locName loc ++ ": " ++ msg) = true := containsSub_decomp _ _ _
    have h6 := containsSub_trans (containsSub_trans h5 h5') h4
    rw [format_eq_spec]
    unfold spec_format
    rw [if_neg hne]
    apply containsSub_append_left
    apply containsSub_append_right
    apply containsSub_append_right
    exact h6

/-- A consumer field whose every sourced value is invalid. -/
def invalid_port : FieldSpec := ⟨"port", none, fun _ => some "invalid literal"⟩

/-- A class declaring two required unset fields and the invalid `port` field. -/
def fields_err : List FieldSpec :=
  base_fields ++ [strField "alpha", strField "beta", invalid_port]

/-- A world where `port` is set (to an invalid value) and `alpha`/`beta` are
unset. -/
def env_err : Env := ⟨[("port", "xyz")], [], fun _ => none⟩

/-- The validation errors of constructing `fields_err` in `env_err`. -/
def errs_err : List FieldError :=
  [.missing ["alpha"], .missing ["beta"], .invalid ["port"] "invalid literal"]

/-- Claim C3, witness: two missing fields plus one invalid field produce a
single formatted fatal error whose message contains both missing names and the
invalid message. -/
theorem claim_C3_witness :
    (load fields_err "" env_err "pkg" none none none false).2 =
      Except.error (format_config_validation_error errs_err) ∧
    containsSub (format_config_validation_error errs_err) "alpha" = true ∧
    containsSub (format_config_validation_error errs_err) "invalid literal" = true :=
  ⟨(claim_C3_error_aggregation fields_err "" env_err "pkg" none none none false
      errs_err rfl).1,
   (claim_C3_error_aggregation fields_err "" env_err "pkg" none none none false
      errs_err rfl).2.1 ["alpha"] (by decide),
   (claim_C3_error_aggregation fields_err "" env_err "pkg" none none none false
      errs_err rfl).2.2 ["port"] "invalid literal" (by decide)⟩

/-! ### Claim C6 -/

/-- Claim C6: in `safe_describe`, a field whose name contains one of the
case-sensitive sensitive substrings renders as `(empty)` when its value is
`None` or the empty string and as `(redacted)` otherwise, and a non-matching
field renders its literal value; consequently two records that differ only in
the (non-`None`, non-empty) values of sensitive fields produce identical
descriptions — the actual value is never emitted. -/
theorem claim_C6_redaction :
    (∀ (d₁ d₂ : List (String × Value)) (ind : String),
      List.Forall₂ (fun p q : String × Value => p.1 = q.1 ∧ (p.2 = q.2 ∨
        (isSensitive p.1 = true ∧ p.2 ≠ none ∧ p.2 ≠ some "" ∧
         q.2 ≠ none ∧ q.2 ≠ some ""))) d₁ d₂ →
      safe_describe d₁ ind = safe_describe d₂ ind) ∧
    (∀ k v, isSensitive k = true → (v = none ∨ v = some "") →
      redactValue k v = "(empty)") ∧
    (∀ k v, isSensitive k = true → v ≠ none → v ≠ some "" →
      redactValue k v = "(redacted)") ∧
    (∀ k v, isSensitive k = false → redactValue k v = renderValue v) := by
  refine ⟨?_, ?_, ?_, ?_⟩
  · intro d₁ d₂ ind hf
    have hmap : d₁.map (fun p => (p.1, redactValue p.1 p.2)) =
        d₂.map (fun p => (p.1, redactValue p.1 p.2)) := by
      induction hf with
      | nil => rfl
      | cons hpq hrest ihr =>
        rw [List.map_cons, List.map_cons, ihr]
        obtain ⟨hk, hv⟩ := hpq
        rcases hv with heq | ⟨hs, hp1, hp2, hq1, hq2⟩
        · rw [hk, heq]
        · rw [hk]
          have hs' : isSensitive _ = true := hk ▸ hs
          simp [redactValue, hs', hp1, hp2, hq1, hq2]
    unfold safe_describe
    rw [hmap]
  · intro k v hs hv
    unfold redactValue
    rw [if_pos hs, if_pos hv]
  · intro k v hs h1 h2
    unfold redactValue
    rw [if_pos hs, if_neg (fun hor => hor.elim (fun h => h1 h) (fun h => h2 h))]
  · intro k v hs
    unfold redactValue
    rw [if_neg (by simp [hs])]

/-- A dump with a sensitive field holding a secret and a plain field. -/
def dump₁ : List (String × Value) := [("api_key", some "abc123"), ("hostname", some "x")]

/-- The same dump with a different secret. -/
def dump₂ : List (String × Value) := [("api_key", some "zzz"), ("hostname", some "x")]

/-- Claim C6, witness: the two dumps describe identically, and the concrete
renderings of P5 hold. -/
theorem claim_C6_witness :
    safe_describe dump₁ "  " = safe_describe dump₂ "  " ∧
    redactValue "api_key" (some "abc123") = "(redacted)" ∧
    redactValue "api_key" (some "") = "(empty)" ∧
    redactValue "api_key" none = "(empty)" ∧
    redactValue "hostname" (some "x") = renderValue (some "x") :=
  ⟨claim_C6_redaction.1 dump₁ dump₂ "  "
      (List.Forall₂.cons
        ⟨rfl, Or.inr ⟨by decide, by decide, by decide, by decide, by decide⟩⟩
        (List.Forall₂.cons ⟨rfl, Or.inl rfl⟩ List.Forall₂.nil)),
   claim_C6_redaction.2.2.1 "api_key" (some "abc123") (by decide) (by decide) (by decide),
   claim_C6_redaction.2.1 "api_key" (some "") (by decide) (Or.inr rfl),
   claim_C6_redaction.2.1 "api_key" none (by decide) (Or.inl rfl),
   claim_C6_redaction.2.2.2 "hostname" (some "x") (by decide)⟩

/-! ### Claim C7 -/

theorem reload_log_injective : Function.Injective reload_log := by
  intro a b h
  unfold reload_log at h
  have hd := congrArg String.data h
  rw [String.data_append, String.data_append] at hd
  exact String.ext (List.append_cancel_left hd)

theorem reload_log_ne_sep (k : String) : reload_log k ≠ "-------------------" := by
  intro h
  unfold reload_log at h
  have hd := congrArg String.data h
  rw [String.data_append] at hd
  simp at hd

/-- Claim C7: on a successful `reload`, every field whose new value differs
from the old is overwritten in place and logged by exactly one changed-parameter
line, no such line is emitted for an unchanged field, and the separator line is
always emitted at the end. -/
theorem claim_C7_reload_diff (fields : List FieldSpec) (pfx : String) (env : Env)
    (self new : List (String × Value))
    (hnd : (fields.map FieldSpec.name).Nodup)
    (hkeys : self.map Prod.fst = fields.map FieldSpec.name)
    (hc : construct fields pfx (reload_args self) (reload_env_files self) env =
      Except.ok new) :
    (reload fields pfx env self).1 = none ∧
    (∀ p ∈ new, p.2 ≠ pyGetattr self p.1 →
      pyGetattr (reload fields pfx env self).2.1 p.1 = p.2 ∧
      (reload fields pfx env self).2.2.count (reload_log p.1) = 1) ∧
    (∀ p ∈ new, p.2 = pyGetattr self p.1 →
      (reload fields pfx env self).2.2.count (reload_log p.1) = 0) ∧
    (reload fields pfx env self).2.2.getLast? = some "-------------------" := by
  have hnewkeys : new.map Prod.fst = fields.map FieldSpec.name := construct_ok_keys hc
  have hndnew : (new.map Prod.fst).Nodup := hnewkeys ▸ hnd
  have hmem : ∀ k, k ∈ new.map Prod.fst → k ∈ self.map Prod.fst := by
    intro k hk
    rw [hkeys, ← hnewkeys]
    exact hk
  obtain ⟨ha, hb, hcv, hd⟩ := reloadLoop_spec new self hndnew hmem
  have hrel : reload fields pfx env self =
      (none, (reloadLoop self new).1, (reloadLoop self new).2 ++ ["-------------------"]) := by
    unfold reload
    rw [hc]
  rw [hrel]
  have hsepz : ∀ k, List.count (reload_log k) ["-------------------"] = 0 := by
    intro k
    simp [List.count_cons, reload_log_ne_sep k]
  refine ⟨rfl, ?_, ?_, ?_⟩
  · intro p hp hchg
    refine ⟨hcv p hp, ?_⟩
    show ((reloadLoop self new).2 ++ ["-------------------"]).count (reload_log p.1) = 1
    rw [List.count_append, hsepz, ha]
    have hmapmap : (List.filter (fun p => decide (p.2 ≠ pyGetattr self p.1)) new).map
        (fun p => reload_log p.1) =
        ((List.filter (fun p => decide (p.2 ≠ pyGetattr self p.1)) new).map Prod.fst).map
          reload_log := by
      rw [List.map_map]
      rfl
    rw [hmapmap, List.count_map_of_injective _ reload_log reload_log_injective]
    have hpf : p ∈ List.filter (fun p => decide (p.2 ≠ pyGetattr self p.1)) new :=
      List.mem_filter.2 ⟨hp, by simpa using hchg⟩
    have hk : p.1 ∈ (List.filter (fun p => decide (p.2 ≠ pyGetattr self p.1)) new).map
        Prod.fst := List.mem_map_of_mem _ hpf
    have hndf : ((List.filter (fun p => decide (p.2 ≠ pyGetattr self p.1)) new).map
        Prod.fst).Nodup := ((List.filter_sublist _).map Prod.fst).nodup hndnew
    simpa using List.count_eq_one_of_mem hndf hk
  · intro p hp hunchg
    show ((reloadLoop self new).2 ++ ["-------------------"]).count (reload_log p.1) = 0
    rw [List.count_append, hsepz, ha]
    have hnotin : reload_log p.1 ∉
        (List.filter (fun p => decide (p.2 ≠ pyGetattr self p.1)) new).map
          (fun p => reload_log p.1) := by
      intro hmem'
      obtain ⟨q, hqf, hqe⟩ := List.mem_map.1 hmem'
      have hq1 : q.1 = p.1 := reload_log_injective hqe
      have hqn : q ∈ new := List.mem_of_mem_filter hqf
      have hqp : q = p := nodup_keys_eq hndnew hqn hp hq1
      have hpred := (List.mem_filter.1 hqf).2
      rw [hqp] at hpred
      simp [hunchg] at hpred
    rw [List.count_eq_zero.2 hnotin]
  · exact List.getLast?_concat _

/-- A world where re-reading yields `x = "b"` while `y` is unchanged. -/
def env_reload : Env := ⟨[("x", "b"), ("y", "keep")], [], fun _ => none⟩

/-- The live record before the reload: `x = "a"`, `y = "keep"`. -/
def self_reload : List (String × Value) :=
  [("dot_env", none), ("dot_env_secrets", none),
   ("app_name", some "App"), ("app_version", some "1.0"),
   ("x", some "a"), ("y", some "keep")]

/-- The record the reload rebuild produces in `env_reload`. -/
def new_reload : List (String × Value) :=
  [("dot_env", none), ("dot_env_secrets", none),
   ("app_name", some "App"), ("app_version", some "1.0"),
   ("x", some "b"), ("y", some "keep")]

/-- Claim C7, witness: after the reload, `x` holds the new value with exactly
one changed-parameter line, `y` is not logged, and the separator ends the log. -/
theorem claim_C7_witness :
    pyGetattr (reload fields_xy "" env_reload self_reload).2.1 "x" = some "b" ∧
    (reload fields_xy "" env_reload self_reload).2.2.count (reload_log "x") = 1 ∧
    (reload fields_xy "" env_reload self_reload).2.2.count (reload_log "y") = 0 ∧
    (reload fields_xy "" env_reload self_reload).2.2.getLast? =
      some "-------------------" := by
  have T := claim_C7_reload_diff fields_xy "" env_reload self_reload new_reload
    (by decide) rfl rfl
  exact ⟨(T.2.1 ("x", some "b") (by decide) (by decide)).1,
         (T.2.1 ("x", some "b") (by decide) (by decide)).2,
         T.2.2.1 ("y", some "keep") (by decide) (by decide),
         T.2.2.2⟩

/-! ### Claim C10 -/

/-- Claim C10: a successful `reload` never changes `app_name`, `app_version`,
`dot_env` or `dot_env_secrets` and never emits a changed-parameter line for
them: they are passed back verbatim as constructor arguments, the
highest-precedence source, so the rebuilt values equal the old ones regardless
of what the environment or override files say. -/
theorem claim_C10_identity_frame (fields : List FieldSpec) (pfx : String) (env : Env)
    (self : List (String × Value)) (k : String)
    (hnd : (fields.map FieldSpec.name).Nodup)
    (hkeys : self.map Prod.fst = fields.map FieldSpec.name)
    (hk : k = "app_version" ∨ k = "app_name" ∨ k = "dot_env" ∨ k = "dot_env_secrets")
    (hfs : ∃ fs ∈ fields, fs.name = k)
    (hsucc : (reload fields pfx env self).1 = none) :
    pyGetattr (reload fields pfx env self).2.1 k = pyGetattr self k ∧
    reload_log k ∉ (reload fields pfx env self).2.2 := by
  cases hc : construct fields pfx (reload_args self) (reload_env_files self) env with
  | error e =>
    exfalso
    unfold reload at hsucc
    rw [hc] at hsucc
    simp at hsucc
  | ok new =>
    have hargsk : alookup (reload_args self) k = some (pyGetattr self k) := by
      rcases hk with rfl | rfl | rfl | rfl <;> simp [reload_args, alookup]
    obtain ⟨fs, hmemf, hnamef⟩ := hfs
    obtain ⟨v, hres, hlook⟩ := construct_ok_lookup hnd hc fs hmemf
    unfold resolveField at hres
    rw [hnamef] at hres hlook
    rw [hargsk] at hres
    simp at hres
    have hlook' : alookup new k = some (pyGetattr self k) := by
      rw [hlook, hres]
    have hmemnew : (k, pyGetattr self k) ∈ new := alookup_mem hlook'
    have hnewkeys : new.map Prod.fst = fields.map FieldSpec.name := construct_ok_keys hc
    have hndnew : (new.map Prod.fst).Nodup := hnewkeys ▸ hnd
    have hmem : ∀ k', k' ∈ new.map Prod.fst → k' ∈ self.map Prod.fst := by
      intro k' hk'
      rw [hkeys, ← hnewkeys]
      exact hk'
    obtain ⟨ha, hb, hcv, hd⟩ := reloadLoop_spec new self hndnew hmem
    have hrel : reload fields pfx env self =
        (none, (reloadLoop self new).1,
          (reloadLoop self new).2 ++ ["-------------------"]) := by
      unfold reload
      rw [hc]
    rw [hrel]
    refine ⟨hcv (k, pyGetattr self k) hmemnew, ?_⟩
    intro hmem'
    rcases List.mem_append.1 hmem' with hbody | hsep
    · rw [ha] at hbody
      obtain ⟨q, hqf, hqe⟩ := List.mem_map.1 hbody
      have hq1 : q.1 = k := reload_log_injective hqe
      have hqn : q ∈ new := List.mem_of_mem_filter hqf
      have hqp : q = (k, pyGetattr self k) := nodup_keys_eq hndnew hqn hmemnew hq1
      have hpred := (List.mem_filter.1 hqf).2
      rw [hqp] at hpred
      simp at hpred
    · rw [List.mem_singleton] at hsep
      exact reload_log_ne_sep k hsep

/-- Claim C10, witness: in the C7 scenario, the identity field `app_name` is
unchanged and unlogged by the successful reload. -/
theorem claim_C10_witness :
    pyGetattr (reload fields_xy "" env_reload self_reload).2.1 "app_name" =
      pyGetattr self_reload "app_name" ∧
    reload_log "app_name" ∉ (reload fields_xy "" env_reload self_reload).2.2 :=
  claim_C10_identity_frame fields_xy "" env_reload self_reload "app_name"
    (by decide) rfl (Or.inr (Or.inl rfl))
    ⟨strField "app_name", List.Mem.tail _ (List.Mem.tail _ (List.Mem.head _)), rfl⟩
    rfl

end PASettings
